import Mathlib

/-!
Verification of the TomoX order-book components of the tomochain repository:
the state dump of ask/bid tries (`tomox/tomox_state/dump.go`), the ordered-trie
extremal queries and deletion exercised by `tomox/tomox_state/tomox_trie_test.go`,
the price-level book operations of the specification, and the light-client
backend order entry points (`les/api_backend.go`).

Conventions of the embedding:
* Byte strings are `List Nat`; `bytesToNat` is the big-endian interpretation
  used by Go `new(big.Int).SetBytes` (the nil slice maps to 0).
* Go maps keyed by `*big.Int` (the dump results) are modelled as association
  lists recording the insertions in production order, since the claims are
  about the order in which entries are produced.
* Arbitrary-precision integers are `Nat` (they are non-negative throughout).
-/

namespace TomoX

/-- Byte strings (`[]byte`). A missing value is the empty list, like a nil slice. -/
abbrev Bytes := List Nat

/-- Big-endian interpretation of a byte string, as in Go `new(big.Int).SetBytes`;
`bytesToNat [] = 0` matches `SetBytes(nil)`. -/
def bytesToNat (bs : Bytes) : Nat := bs.foldl (fun a b => a * 256 + b) 0

/-- The decoded price-level value (`orderList` in `tomox_state`): the aggregate
volume at the price and the root of the order queue trie of that price. -/
structure orderList where
  Volume : Nat
  Root : Nat
deriving DecidableEq

instance : Inhabited orderList := ⟨⟨0, 0⟩⟩

/-- Modelled from the spec: the RLP decoding of a stored price-level value into
`{aggregateVolume, queueRoot}` (`rlp.DecodeBytes` is not under src/). The
modelled wire format is the two-element byte list `[Volume, Root]`; any other
shape fails to decode, which models an undecodable stored value. -/
def decodeOrderList : Bytes → Option orderList
  | [v, r] => some ⟨v, r⟩
  | _ => none

/-- One side of an exchange object: the stored ask and bid tries, as lists of
(storage key, stored value bytes) pairs. Storage keys are the fixed-width
big-endian encodings of prices interpreted as numbers, so numeric comparison of
storage keys coincides with the lexicographic path order of the trie. -/
structure exchangeObject where
  asksTrie : List (Nat × Bytes)
  bidsTrie : List (Nat × Bytes)
deriving DecidableEq

/-- The TomoX state database as seen by the dump: the exchange objects keyed by
order book hash, the preimage registry behind `self.trie.GetKey`, and the order
queue tries addressable by their root (`newStateOrderList(...).getTrie`). -/
structure TomoXStateDB where
  exchangeObjects : List (Nat × exchangeObject)
  preimages : Nat → Option Bytes
  queues : Nat → List (Nat × Bytes)

/-- Association-list lookup, first binding wins. -/
def lookupKV {α : Type} (k : Nat) : List (Nat × α) → Option α
  | [] => none
  | kv :: rest => if kv.1 = k then some kv.2 else lookupKV k rest

/-- `getStateExchangeObject`: resolves an order book hash to its exchange
object, `none` when the book has never been created. -/
def TomoXStateDB.getStateExchangeObject (self : TomoXStateDB) (orderBook : Nat) :
    Option exchangeObject :=
  lookupKV orderBook self.exchangeObjects

/-- `self.trie.GetKey(k)`: the preimage registry lookup. Go returns the nil
slice on a miss, modelled as the empty byte string, and `dump.go` uses the
result without checking it. -/
def TomoXStateDB.getKeyBytes (self : TomoXStateDB) (k : Nat) : Bytes :=
  (self.preimages k).getD []

/-- Key order on stored entries: comparison of storage keys. -/
def keyLE (a b : Nat × Bytes) : Prop := a.1 ≤ b.1

instance : DecidableRel keyLE := fun a b => Nat.decLe a.1 b.1

instance : IsTotal (Nat × Bytes) keyLE := ⟨fun a b => Nat.le_total a.1 b.1⟩

instance : IsTrans (Nat × Bytes) keyLE := ⟨fun _ _ _ => Nat.le_trans⟩

/-- Modelled from the spec: `trie.NewIterator(t.NodeIterator(nil))` enumeration
(the trie iterator is not under src/). It yields the stored entries in
ascending storage-key order, the lexicographic path order of the trie. -/
def nodeIterate (t : List (Nat × Bytes)) : List (Nat × Bytes) :=
  List.insertionSort keyLE t

/-- The inner loop of the dump: iterate one order queue trie, resolving each
order id through the preimage registry and reading the raw volume bytes. -/
def TomoXStateDB.dumpQueue (self : TomoXStateDB) (root : Nat) : List (Nat × Nat) :=
  (nodeIterate (self.queues root)).map
    (fun kv => (bytesToNat (self.getKeyBytes kv.1), bytesToNat kv.2))

/-- One price entry of a dump result: the aggregate volume decoded from the
stored value and the orders of that price in production order. -/
structure DumpOrderList where
  Volume : Nat
  Orders : List (Nat × Nat)
deriving DecidableEq

/-- The errors of `DumpAskTrie`/`DumpBidTrie`, carrying exactly the data the Go
error messages interpolate: the order book hash, and for a decode failure the
price resolved for the offending entry. -/
inductive DumpError where
  | orderBookNotFound (orderBook : Nat)
  | decodeFail (orderBook : Nat) (price : Nat)
deriving DecidableEq

/-- The loop body of `DumpAskTrie`, line by line: resolve the price preimage,
decode the stored value, and on success dump the order queue of the decoded
root and record the price entry; the Go function duplicates this loop for the
bid side, mirrored below by `dumpBidEntries`. -/
def TomoXStateDB.dumpAskEntries (self : TomoXStateDB) (orderBook : Nat) :
    List (Nat × Bytes) → Except DumpError (List (Nat × DumpOrderList))
  | [] => .ok []
  | kv :: rest =>
    let priceByte := self.getKeyBytes kv.1
    let price := bytesToNat priceByte
    match decodeOrderList kv.2 with
    | none => .error (.decodeFail orderBook price)
    | some data =>
      match self.dumpAskEntries orderBook rest with
      | .error e => .error e
      | .ok r => .ok ((price, ⟨data.Volume, self.dumpQueue data.Root⟩) :: r)

/-- The loop body of `DumpBidTrie`, a verbatim duplicate of the ask-side loop
as in the source. -/
def TomoXStateDB.dumpBidEntries (self : TomoXStateDB) (orderBook : Nat) :
    List (Nat × Bytes) → Except DumpError (List (Nat × DumpOrderList))
  | [] => .ok []
  | kv :: rest =>
    let priceByte := self.getKeyBytes kv.1
    let price := bytesToNat priceByte
    match decodeOrderList kv.2 with
    | none => .error (.decodeFail orderBook price)
    | some data =>
      match self.dumpBidEntries orderBook rest with
      | .error e => .error e
      | .ok r => .ok ((price, ⟨data.Volume, self.dumpQueue data.Root⟩) :: r)

/-- `DumpAskTrie`: look up the exchange object, fail with the not-found error
when it is absent, otherwise walk the ask trie in iterator order. -/
def TomoXStateDB.DumpAskTrie (self : TomoXStateDB) (orderBook : Nat) :
    Except DumpError (List (Nat × DumpOrderList)) :=
  match self.getStateExchangeObject orderBook with
  | none => .error (.orderBookNotFound orderBook)
  | some obj => self.dumpAskEntries orderBook (nodeIterate obj.asksTrie)

/-- `DumpBidTrie`: identical to `DumpAskTrie` except that it walks the bid trie. -/
def TomoXStateDB.DumpBidTrie (self : TomoXStateDB) (orderBook : Nat) :
    Except DumpError (List (Nat × DumpOrderList)) :=
  match self.getStateExchangeObject orderBook with
  | none => .error (.orderBookNotFound orderBook)
  | some obj => self.dumpBidEntries orderBook (nodeIterate obj.bidsTrie)

/-- A TomoX storage trie as exercised by `TestTomoxTrieTest`: entries from
semantic keys (fixed-width big-endian byte strings read as numbers) to values. -/
abbrev TomoxTrie := List (Nat × Nat)

/-- Modelled from the spec: `TryGetBestLeftKeyAndValue` (implementation not
under src/) returns the entry with the smallest semantic key currently present,
absent exactly when the trie is empty. -/
def TryGetBestLeftKeyAndValue : TomoxTrie → Option (Nat × Nat)
  | [] => none
  | kv :: rest =>
    match TryGetBestLeftKeyAndValue rest with
    | none => some kv
    | some kv2 => if kv.1 ≤ kv2.1 then some kv else some kv2

/-- Modelled from the spec: `TryGetBestRightKeyAndValue` (implementation not
under src/) returns the entry with the largest semantic key currently present,
absent exactly when the trie is empty. -/
def TryGetBestRightKeyAndValue : TomoxTrie → Option (Nat × Nat)
  | [] => none
  | kv :: rest =>
    match TryGetBestRightKeyAndValue rest with
    | none => some kv
    | some kv2 => if kv2.1 ≤ kv.1 then some kv else some kv2

/-- Modelled from the spec: `delete(key)` of the ordered store (`TryDelete` /
`DeleteObject`, implementations not under src/) removes the key if present and
is a no-op, not an error, if the key is absent. -/
def TryDelete (t : TomoxTrie) (k : Nat) : Except String TomoxTrie :=
  .ok (t.filter (fun kv => kv.1 != k))

/-- An order queue of one price level: orders (order id, remaining volume),
kept in ascending order-id order. -/
abbrev OrderQueue := List (Nat × Nat)

/-- An ask-side price-level book: price levels (price, order queue), kept in
ascending price order. The aggregate volume of a level is the specified
invariant `sum of the remaining volumes of its queue` and is exposed by the
snapshot below. -/
abbrev AskBook := List (Nat × OrderQueue)

/-- Modelled from the spec: the order-queue part of `upsertOrder` updates the
volume of the order by `delta`, deleting the entry when the resulting volume is
not positive, and inserts new orders at their ordered position. -/
def upsertQueue (orderId : Nat) (delta : Int) : OrderQueue → OrderQueue
  | [] => if delta ≤ 0 then [] else [(orderId, delta.toNat)]
  | iv :: rest =>
    if orderId < iv.1 then
      if delta ≤ 0 then iv :: rest else (orderId, delta.toNat) :: iv :: rest
    else if orderId = iv.1 then
      if (iv.2 : Int) + delta ≤ 0 then rest
      else (orderId, ((iv.2 : Int) + delta).toNat) :: rest
    else iv :: upsertQueue orderId delta rest

/-- The aggregate volume of a queue: the sum of the remaining volumes. -/
def queueVolume (q : OrderQueue) : Nat := (q.map Prod.snd).sum

/-- Modelled from the spec: `upsertOrder(price, orderId, volumeDelta)` opens
(creating if absent) the order queue of `price`, applies the volume update, and
deletes the price level when its aggregate volume becomes 0 (which, with
positive volumes, is exactly when the queue becomes empty). -/
def upsertOrder (price orderId : Nat) (delta : Int) : AskBook → AskBook
  | [] =>
    let nq := upsertQueue orderId delta []
    if nq = [] then [] else [(price, nq)]
  | pq :: rest =>
    if price < pq.1 then
      let nq := upsertQueue orderId delta []
      if nq = [] then pq :: rest else (price, nq) :: pq :: rest
    else if price = pq.1 then
      let nq := upsertQueue orderId delta pq.2
      if nq = [] then rest else (price, nq) :: rest
    else pq :: upsertOrder price orderId delta rest

/-- Modelled from the spec: `removeOrder(price, orderId)` deletes the order
from its queue, decrements the aggregate accordingly, and deletes the price
level when the aggregate becomes 0. -/
def removeOrder (price orderId : Nat) : AskBook → AskBook
  | [] => []
  | pq :: rest =>
    if price = pq.1 then
      let nq := pq.2.filter (fun iv => iv.1 != orderId)
      if nq = [] then rest else (price, nq) :: rest
    else pq :: removeOrder price orderId rest

/-- The ask-book states reachable from the empty book through the two
specified mutations. -/
inductive ReachableAsk : AskBook → Prop
  | empty : ReachableAsk []
  | upsert (price orderId : Nat) (delta : Int) {b : AskBook} :
      ReachableAsk b → ReachableAsk (upsertOrder price orderId delta b)
  | remove (price orderId : Nat) {b : AskBook} :
      ReachableAsk b → ReachableAsk (removeOrder price orderId b)

/-- Modelled from the spec: `snapshot()` of an ask book, the ordered mapping
price to (aggregate volume, orders of that price). -/
def snapshotAsk (b : AskBook) : List (Nat × Nat × OrderQueue) :=
  b.map (fun pq => (pq.1, queueVolume pq.2, pq.2))

/-- The (price, orderId, volume) triples of a snapshot, in snapshot order. -/
def snapshotTriples (b : AskBook) : List (Nat × Nat × Nat) :=
  (b.map (fun pq => pq.2.map (fun iv => (pq.1, iv.1, iv.2)))).flatten

/-- Replaying a list of (price, orderId, volume) triples via `upsertOrder`. -/
def replayAsk (ts : List (Nat × Nat × Nat)) (b : AskBook) : AskBook :=
  ts.foldl (fun acc t => upsertOrder t.1 t.2.1 (t.2.2 : Int) acc) b

/-- An order transaction as far as the light backend is concerned: opaque data. -/
structure OrderTransaction where
  id : Nat
deriving DecidableEq

/-- The light-client API backend. The Go struct holds only the light node and
gas price oracle handles; it has no TomoX service and no order pool. -/
structure LesApiBackend where
  id : Nat

/-- `LesApiBackend.SendOrderTx`: the body is `return nil`; the backend is
untouched and no error is reported. -/
def LesApiBackend.SendOrderTx (b : LesApiBackend) (signedTx : OrderTransaction) :
    LesApiBackend × Option String :=
  (b, none)

/-- `LesApiBackend.GetOrderNonce`: the body returns nonce 0 and the fixed error. -/
def LesApiBackend.GetOrderNonce (b : LesApiBackend) (address : Nat) :
    Nat × Option String :=
  (0, some "cannot find tomox service")

/-- The value a successful dump records for one stored entry: the price
resolved through the preimage registry, and the aggregate volume and order
queue of the decoded stored value. -/
def TomoXStateDB.dumpEntry (self : TomoXStateDB) (kv : Nat × Bytes) :
    Nat × DumpOrderList :=
  (bytesToNat (self.getKeyBytes kv.1),
   ⟨((decodeOrderList kv.2).getD default).Volume,
    self.dumpQueue ((decodeOrderList kv.2).getD default).Root⟩)

/-- Consistency of one stored side with the preimage registry: storage keys are
pairwise distinct, every storage key resolves back to a byte string denoting
its own numeric value (the storage key is the fixed-width big-endian encoding
of the semantic key), every stored value decodes, and the order queue of every
decoded root satisfies the same two key conditions. -/
abbrev TomoXStateDB.sideConsistent (self : TomoXStateDB)
    (entries : List (Nat × Bytes)) : Prop :=
  (entries.map Prod.fst).Nodup ∧
  (∀ kv ∈ entries, bytesToNat (self.getKeyBytes kv.1) = kv.1) ∧
  (∀ kv ∈ entries, (decodeOrderList kv.2).isSome = true) ∧
  (∀ kv ∈ entries,
    ((self.queues ((decodeOrderList kv.2).getD default).Root).map Prod.fst).Nodup ∧
    ∀ kv2 ∈ self.queues ((decodeOrderList kv.2).getD default).Root,
      bytesToNat (self.getKeyBytes kv2.1) = kv2.1)

/-- Renaming the order book interpolated into a dump error message. -/
def DumpError.withBook : DumpError → Nat → DumpError
  | .orderBookNotFound _, b => .orderBookNotFound b
  | .decodeFail _ price, b => .decodeFail b price

/-- A well-formed order queue: strictly ascending order ids, positive volumes. -/
def WFQueue (q : OrderQueue) : Prop :=
  (q.map Prod.fst).Sorted (· < ·) ∧ ∀ iv ∈ q, 0 < iv.2

/-- A well-formed ask book: strictly ascending prices, and each price level
holds a well-formed, non-empty order queue. -/
def WFBook (b : AskBook) : Prop :=
  (b.map Prod.fst).Sorted (· < ·) ∧ ∀ pq ∈ b, WFQueue pq.2 ∧ pq.2 ≠ []

/-- A fully consistent sample state: order book 1 with two ask price levels
(prices 90 and 100) and one bid price level, single-byte preimages registered
for every key, and order queues behind roots 3 and 4. -/
def sampleConsistentState : TomoXStateDB where
  exchangeObjects := [(1, ⟨[(100, [8, 4]), (90, [10, 3])], [(100, [8, 4])]⟩)]
  preimages := fun k => some [k]
  queues := fun r => if r = 3 then [(3, [10])] else if r = 4 then [(1, [5]), (2, [3])] else []

/-- A sample state holding only order book 1, with both sides empty. -/
def sampleEmptyBookState : TomoXStateDB where
  exchangeObjects := [(1, ⟨[], []⟩)]
  preimages := fun _ => none
  queues := fun _ => []

/-- A sample state whose order book 1 has one decodable ask entry under storage
key 5, while the preimage registry resolves nothing at all. -/
def samplePreimageMissState : TomoXStateDB where
  exchangeObjects := [(1, ⟨[(5, [1, 7])], []⟩)]
  preimages := fun _ => none
  queues := fun _ => []

/-- A sample state whose order book 1 has one undecodable ask value and one
undecodable bid value, with all preimages resolvable. -/
def sampleBadValueState : TomoXStateDB where
  exchangeObjects := [(1, ⟨[(5, [])], [(6, [])]⟩)]
  preimages := fun k => some [k]
  queues := fun _ => []

/-- A sample state whose stored aggregate volume (7) at ask price 9 of book 1
disagrees with the sum (5) of the order volumes in the queue behind root 3. -/
def sampleAggregateMismatchState : TomoXStateDB where
  exchangeObjects := [(1, ⟨[(9, [7, 3])], []⟩)]
  preimages := fun k => some [k]
  queues := fun r => if r = 3 then [(1, [2]), (2, [3])] else []

/-- A sample state with two order books: book 1 carries an undecodable value in
its ask trie, book 2 carries the identical entry in its bid trie; every
preimage is resolvable. -/
def sampleTwoBookState : TomoXStateDB where
  exchangeObjects := [(1, ⟨[(5, [])], []⟩), (2, ⟨[], [(5, [])]⟩)]
  preimages := fun k => some [k]
  queues := fun _ => []

theorem bestLeft_eq_none_iff (t : TomoxTrie) :
    TryGetBestLeftKeyAndValue t = none ↔ t = [] := by
  cases t with
  | nil => simp [TryGetBestLeftKeyAndValue]
  | cons kv rest =>
    simp only [TryGetBestLeftKeyAndValue]
    cases TryGetBestLeftKeyAndValue rest with
    | none => simp
    | some kv2 => by_cases h : kv.1 ≤ kv2.1 <;> simp [h]

theorem bestRight_eq_none_iff (t : TomoxTrie) :
    TryGetBestRightKeyAndValue t = none ↔ t = [] := by
  cases t with
  | nil => simp [TryGetBestRightKeyAndValue]
  | cons kv rest =>
    simp only [TryGetBestRightKeyAndValue]
    cases TryGetBestRightKeyAndValue rest with
    | none => simp
    | some kv2 => by_cases h : kv2.1 ≤ kv.1 <;> simp [h]

theorem bestLeft_le (t : TomoxTrie) :
    ∀ lkv, TryGetBestLeftKeyAndValue t = some lkv → ∀ kv ∈ t, lkv.1 ≤ kv.1 := by
  induction t with
  | nil => intro lkv hl kv hkv; cases hkv
  | cons hd rest ih =>
    intro lkv hl kv hkv
    cases hrest : TryGetBestLeftKeyAndValue rest with
    | none =>
      have hre : rest = [] := (bestLeft_eq_none_iff rest).mp hrest
      subst hre
      simp only [TryGetBestLeftKeyAndValue] at hl
      cases hl
      rcases List.mem_singleton.mp hkv with rfl
      exact Nat.le_refl _
    | some kv2 =>
      simp only [TryGetBestLeftKeyAndValue, hrest] at hl
      by_cases h : hd.1 ≤ kv2.1
      · rw [if_pos h] at hl
        cases hl
        rcases List.mem_cons.mp hkv with heq | hmem
        · rw [heq]
        · exact Nat.le_trans h (ih kv2 hrest kv hmem)
      · rw [if_neg h] at hl
        cases hl
        rcases List.mem_cons.mp hkv with heq | hmem
        · rw [heq]; exact Nat.le_of_not_le h
        · exact ih _ hrest kv hmem

theorem bestRight_ge (t : TomoxTrie) :
    ∀ rkv, TryGetBestRightKeyAndValue t = some rkv → ∀ kv ∈ t, kv.1 ≤ rkv.1 := by
  induction t with
  | nil => intro rkv hr kv hkv; cases hkv
  | cons hd rest ih =>
    intro rkv hr kv hkv
    cases hrest : TryGetBestRightKeyAndValue rest with
    | none =>
      have hre : rest = [] := (bestRight_eq_none_iff rest).mp hrest
      subst hre
      simp only [TryGetBestRightKeyAndValue] at hr
      cases hr
      rcases List.mem_singleton.mp hkv with rfl
      exact Nat.le_refl _
    | some kv2 =>
      simp only [TryGetBestRightKeyAndValue, hrest] at hr
      by_cases h : kv2.1 ≤ hd.1
      · rw [if_pos h] at hr
        cases hr
        rcases List.mem_cons.mp hkv with heq | hmem
        · rw [heq]
        · exact Nat.le_trans (ih kv2 hrest kv hmem) h
      · rw [if_neg h] at hr
        cases hr
        rcases List.mem_cons.mp hkv with heq | hmem
        · rw [heq]; exact Nat.le_of_not_le h
        · exact ih _ hrest kv hmem

/-- Claim C5: for every trie state, bestLeft (TryGetBestLeftKeyAndValue) and
bestRight (TryGetBestRightKeyAndValue) return absent if and only if the trie is
empty, and when the trie is non-empty the key returned by bestLeft is less than
or equal to every present semantic key, which is less than or equal to the key
returned by bestRight. -/
theorem best_left_right_extremal (t : TomoxTrie) :
    (TryGetBestLeftKeyAndValue t = none ↔ t = []) ∧
    (TryGetBestRightKeyAndValue t = none ↔ t = []) ∧
    (∀ lkv, TryGetBestLeftKeyAndValue t = some lkv → ∀ kv ∈ t, lkv.1 ≤ kv.1) ∧
    (∀ rkv, TryGetBestRightKeyAndValue t = some rkv → ∀ kv ∈ t, kv.1 ≤ rkv.1) :=
  ⟨bestLeft_eq_none_iff t, bestRight_eq_none_iff t, bestLeft_le t, bestRight_ge t⟩

theorem best_left_right_extremal_witness : (1 : Nat) ≤ 2 ∧ (1 : Nat) ≤ 2 :=
  ⟨(best_left_right_extremal [(1, 1), (2, 2)]).2.2.1 (1, 1) (by decide) (2, 2) (by decide),
   (best_left_right_extremal [(1, 1), (2, 2)]).2.2.2 (2, 2) (by decide) (1, 1) (by decide)⟩

/-- Claim C7: for every key, deleting that key from the ordered store removes
it if present, and is a no-op that reports no error when the key is absent; the
other entries of the store are unchanged in both cases. -/
theorem tryDelete_removes_or_noop (t : TomoxTrie) (k : Nat) :
    (∃ u, TryDelete t k = .ok u) ∧
    ∀ u, TryDelete t k = .ok u →
      (∀ kv ∈ u, kv.1 ≠ k) ∧
      (∀ kv ∈ t, kv.1 ≠ k → kv ∈ u) ∧
      u.Sublist t ∧
      ((∀ kv ∈ t, kv.1 ≠ k) → u = t) := by
  refine ⟨⟨t.filter (fun kv => kv.1 != k), rfl⟩, ?_⟩
  intro u hu
  have hu2 : u = t.filter (fun kv => kv.1 != k) := by
    have h0 := hu.symm.trans (rfl : TryDelete t k = .ok (t.filter (fun kv => kv.1 != k)))
    exact Except.ok.inj h0
  subst hu2
  refine ⟨?_, ?_, t.filter_sublist, ?_⟩
  · intro kv hkv
    exact bne_iff_ne.mp (List.mem_filter.mp hkv).2
  · intro kv hkv hne
    exact List.mem_filter.mpr ⟨hkv, bne_iff_ne.mpr hne⟩
  · intro hall
    exact List.filter_eq_self.mpr (fun kv hkv => bne_iff_ne.mpr (hall kv hkv))

theorem tryDelete_removes_or_noop_witness :
    (2, 20) ∈ ([(2, 20)] : TomoxTrie) ∧ ([(2, 20)] : TomoxTrie).Sublist [(1, 10), (2, 20)] :=
  ⟨((tryDelete_removes_or_noop [(1, 10), (2, 20)] 1).2 [(2, 20)] rfl).2.1
      (2, 20) (by decide) (by decide),
   ((tryDelete_removes_or_noop [(1, 10), (2, 20)] 1).2 [(2, 20)] rfl).2.2.1⟩

theorem dumpBidEntries_eq_dumpAskEntries (self : TomoXStateDB) (orderBook : Nat) :
    ∀ l, self.dumpBidEntries orderBook l = self.dumpAskEntries orderBook l := by
  intro l
  induction l with
  | nil => rfl
  | cons hd rest ih =>
    simp only [TomoXStateDB.dumpBidEntries, TomoXStateDB.dumpAskEntries, ih]

theorem dumpAskEntries_ok_of_decodes (self : TomoXStateDB) (orderBook : Nat) :
    ∀ l, (∀ kv ∈ l, (decodeOrderList kv.2).isSome = true) →
      self.dumpAskEntries orderBook l = .ok (l.map self.dumpEntry) := by
  intro l
  induction l with
  | nil => intro _; rfl
  | cons hd rest ih =>
    intro h
    obtain ⟨data, hdata⟩ :=
      Option.isSome_iff_exists.mp (h hd (List.mem_cons_self hd rest))
    have hr := ih (fun kv hkv => h kv (List.mem_cons_of_mem hd hkv))
    simp only [TomoXStateDB.dumpAskEntries, hdata, hr, List.map_cons]
    simp [TomoXStateDB.dumpEntry, hdata]

theorem dumpAskEntries_never_notFound (self : TomoXStateDB) (orderBook : Nat) (b : Nat) :
    ∀ l, self.dumpAskEntries orderBook l ≠ .error (.orderBookNotFound b) := by
  intro l
  induction l with
  | nil => simp [TomoXStateDB.dumpAskEntries]
  | cons hd rest ih =>
    intro hcontra
    cases hdec : decodeOrderList hd.2 with
    | none =>
      simp only [TomoXStateDB.dumpAskEntries, hdec] at hcontra
      cases hcontra
    | some data =>
      cases hrec : self.dumpAskEntries orderBook rest with
      | error e =>
        simp only [TomoXStateDB.dumpAskEntries, hdec, hrec] at hcontra
        cases hcontra
        exact ih hrec
      | ok r =>
        simp only [TomoXStateDB.dumpAskEntries, hdec, hrec] at hcontra
        cases hcontra

theorem dumpAskEntries_decodes_of_ok (self : TomoXStateDB) (orderBook : Nat) :
    ∀ l r, self.dumpAskEntries orderBook l = .ok r →
      ∀ kv ∈ l, (decodeOrderList kv.2).isSome = true := by
  intro l
  induction l with
  | nil => intro r _ kv hkv; cases hkv
  | cons hd rest ih =>
    intro r h kv hkv
    cases hdec : decodeOrderList hd.2 with
    | none =>
      simp only [TomoXStateDB.dumpAskEntries, hdec] at h
      cases h
    | some data =>
      cases hrec : self.dumpAskEntries orderBook rest with
      | error e =>
        simp only [TomoXStateDB.dumpAskEntries, hdec, hrec] at h
        cases h
      | ok r2 =>
        rcases List.mem_cons.mp hkv with heq | hmem
        · rw [heq, hdec]; rfl
        · exact ih r2 hrec kv hmem

theorem dumpAskEntries_error_of_bad (self : TomoXStateDB) (orderBook : Nat) :
    ∀ l, (∃ kv ∈ l, decodeOrderList kv.2 = none) →
      ∃ kv2 ∈ l, decodeOrderList kv2.2 = none ∧
        self.dumpAskEntries orderBook l =
          .error (.decodeFail orderBook (bytesToNat (self.getKeyBytes kv2.1))) := by
  intro l
  induction l with
  | nil =>
    intro h
    obtain ⟨kv, hkv, _⟩ := h
    cases hkv
  | cons hd rest ih =>
    intro h
    cases hdec : decodeOrderList hd.2 with
    | none =>
      refine ⟨hd, List.mem_cons_self hd rest, hdec, ?_⟩
      simp only [TomoXStateDB.dumpAskEntries, hdec]
    | some data =>
      obtain ⟨kv, hkv, hbad⟩ := h
      have hkvr : kv ∈ rest := by
        rcases List.mem_cons.mp hkv with heq | hmem
        · rw [heq, hdec] at hbad; cases hbad
        · exact hmem
      obtain ⟨kv2, hkv2, hbad2, heq2⟩ := ih ⟨kv, hkvr, hbad⟩
      refine ⟨kv2, List.mem_cons_of_mem hd hkv2, hbad2, ?_⟩
      simp only [TomoXStateDB.dumpAskEntries, hdec, heq2]

/-- Claim C2: DumpAskTrie/DumpBidTrie fail with a not-found error exactly when
the queried order-book identifier has no exchange object (it has never been
touched by any write); for an order book that does exist, dumping a side that
holds no orders returns an empty snapshot and no error. -/
theorem dump_not_found_exactly (self : TomoXStateDB) (orderBook : Nat) :
    (∀ b2, self.DumpAskTrie orderBook = .error (.orderBookNotFound b2) →
      self.getStateExchangeObject orderBook = none) ∧
    (∀ b2, self.DumpBidTrie orderBook = .error (.orderBookNotFound b2) →
      self.getStateExchangeObject orderBook = none) ∧
    (self.getStateExchangeObject orderBook = none →
      self.DumpAskTrie orderBook = .error (.orderBookNotFound orderBook) ∧
      self.DumpBidTrie orderBook = .error (.orderBookNotFound orderBook)) ∧
    (∀ obj, self.getStateExchangeObject orderBook = some obj →
      (obj.asksTrie = [] → self.DumpAskTrie orderBook = .ok []) ∧
      (obj.bidsTrie = [] → self.DumpBidTrie orderBook = .ok [])) := by
  refine ⟨?_, ?_, ?_, ?_⟩
  · intro b2 h
    cases hobj : self.getStateExchangeObject orderBook with
    | none => rfl
    | some obj =>
      simp only [TomoXStateDB.DumpAskTrie, hobj] at h
      exact absurd h (dumpAskEntries_never_notFound self orderBook b2 _)
  · intro b2 h
    cases hobj : self.getStateExchangeObject orderBook with
    | none => rfl
    | some obj =>
      simp only [TomoXStateDB.DumpBidTrie, hobj,
        dumpBidEntries_eq_dumpAskEntries] at h
      exact absurd h (dumpAskEntries_never_notFound self orderBook b2 _)
  · intro h
    constructor
    · simp only [TomoXStateDB.DumpAskTrie, h]
    · simp only [TomoXStateDB.DumpBidTrie, h]
  · intro obj hobj
    constructor
    · intro hempty
      simp only [TomoXStateDB.DumpAskTrie, hobj, hempty]
      rfl
    · intro hempty
      simp only [TomoXStateDB.DumpBidTrie, hobj, hempty]
      rfl

theorem dump_not_found_exactly_witness :
    sampleEmptyBookState.DumpAskTrie 1 = .ok [] ∧
    sampleEmptyBookState.DumpBidTrie 1 = .ok [] ∧
    sampleEmptyBookState.DumpAskTrie 2 = .error (.orderBookNotFound 2) ∧
    sampleEmptyBookState.getStateExchangeObject 2 = none := by
  refine ⟨((dump_not_found_exactly sampleEmptyBookState 1).2.2.2 ⟨[], []⟩ rfl).1 rfl,
          ((dump_not_found_exactly sampleEmptyBookState 1).2.2.2 ⟨[], []⟩ rfl).2 rfl,
          ((dump_not_found_exactly sampleEmptyBookState 2).2.2.1 rfl).1,
          (dump_not_found_exactly sampleEmptyBookState 2).1 2
            ((dump_not_found_exactly sampleEmptyBookState 2).2.2.1 rfl).1⟩

/-- Claim C3: for every stored price-level value that fails to decode during a
dump, DumpAskTrie and DumpBidTrie return an error that names the offending
order-book id and the price, and never substitute a silent default value for
the undecodable entry (a successful dump certifies that every stored value
decoded). -/
theorem dump_decode_failure_surfaces (self : TomoXStateDB) (orderBook : Nat)
    (obj : exchangeObject)
    (hobj : self.getStateExchangeObject orderBook = some obj) :
    (∀ r, self.DumpAskTrie orderBook = .ok r →
      ∀ kv ∈ obj.asksTrie, (decodeOrderList kv.2).isSome = true) ∧
    (∀ r, self.DumpBidTrie orderBook = .ok r →
      ∀ kv ∈ obj.bidsTrie, (decodeOrderList kv.2).isSome = true) ∧
    ((∃ kv ∈ obj.asksTrie, decodeOrderList kv.2 = none) →
      ∃ kv2 ∈ obj.asksTrie, decodeOrderList kv2.2 = none ∧
        self.DumpAskTrie orderBook =
          .error (.decodeFail orderBook (bytesToNat (self.getKeyBytes kv2.1)))) ∧
    ((∃ kv ∈ obj.bidsTrie, decodeOrderList kv.2 = none) →
      ∃ kv2 ∈ obj.bidsTrie, decodeOrderList kv2.2 = none ∧
        self.DumpBidTrie orderBook =
          .error (.decodeFail orderBook (bytesToNat (self.getKeyBytes kv2.1)))) := by
  refine ⟨?_, ?_, ?_, ?_⟩
  · intro r h kv hkv
    simp only [TomoXStateDB.DumpAskTrie, hobj] at h
    exact dumpAskEntries_decodes_of_ok self orderBook _ r h kv
      ((List.mem_insertionSort keyLE).mpr hkv)
  · intro r h kv hkv
    simp only [TomoXStateDB.DumpBidTrie, hobj,
      dumpBidEntries_eq_dumpAskEntries] at h
    exact dumpAskEntries_decodes_of_ok self orderBook _ r h kv
      ((List.mem_insertionSort keyLE).mpr hkv)
  · intro h
    obtain ⟨kv, hkv, hbad⟩ := h
    obtain ⟨kv2, hkv2, hbad2, heq2⟩ :=
      dumpAskEntries_error_of_bad self orderBook (nodeIterate obj.asksTrie)
        ⟨kv, (List.mem_insertionSort keyLE).mpr hkv, hbad⟩
    refine ⟨kv2, (List.mem_insertionSort keyLE).mp hkv2, hbad2, ?_⟩
    simp only [TomoXStateDB.DumpAskTrie, hobj]
    exact heq2
  · intro h
    obtain ⟨kv, hkv, hbad⟩ := h
    obtain ⟨kv2, hkv2, hbad2, heq2⟩ :=
      dumpAskEntries_error_of_bad self orderBook (nodeIterate obj.bidsTrie)
        ⟨kv, (List.mem_insertionSort keyLE).mpr hkv, hbad⟩
    refine ⟨kv2, (List.mem_insertionSort keyLE).mp hkv2, hbad2, ?_⟩
    simp only [TomoXStateDB.DumpBidTrie, hobj,
      dumpBidEntries_eq_dumpAskEntries]
    exact heq2

theorem dump_decode_failure_surfaces_witness :
    sampleBadValueState.DumpAskTrie 1 = .error (.decodeFail 1 5) ∧
    sampleBadValueState.DumpBidTrie 1 = .error (.decodeFail 1 6) := by
  constructor
  · obtain ⟨kv2, hkv2, _, heq⟩ :=
      (dump_decode_failure_surfaces sampleBadValueState 1 ⟨[(5, [])], [(6, [])]⟩ rfl).2.2.1
        ⟨(5, []), List.mem_singleton.mpr rfl, rfl⟩
    rcases List.mem_singleton.mp hkv2 with rfl
    simpa [sampleBadValueState, TomoXStateDB.getKeyBytes, bytesToNat] using heq
  · obtain ⟨kv2, hkv2, _, heq⟩ :=
      (dump_decode_failure_surfaces sampleBadValueState 1 ⟨[(5, [])], [(6, [])]⟩ rfl).2.2.2
        ⟨(6, []), List.mem_singleton.mpr rfl, rfl⟩
    rcases List.mem_singleton.mp hkv2 with rfl
    simpa [sampleBadValueState, TomoXStateDB.getKeyBytes, bytesToNat] using heq

/-- Claim C4 counterexample: in `samplePreimageMissState` the preimage of the
single stored ask key (storage key 5) is unresolvable, yet the dump returns no
error: it substitutes the nil byte string for the key, produces price 0, and
continues, contradicting the claim that a preimage-registry miss is escalated
to an error returned to the caller. -/
theorem dump_preimage_miss_swallowed :
    samplePreimageMissState.preimages 5 = none ∧
    samplePreimageMissState.getStateExchangeObject 1 = some ⟨[(5, [1, 7])], []⟩ ∧
    samplePreimageMissState.DumpAskTrie 1 = .ok [(0, ⟨1, []⟩)] :=
  ⟨rfl, rfl, rfl⟩

/-- Claim C4 amended: a preimage-registry miss during a dump traversal is not
escalated to an error; GetKey returning nil is silently substituted (the key
decodes to 0) and the dump continues. In particular, whenever the exchange
object exists and every stored value decodes, both dumps succeed regardless of
the preimage registry, which resolves nothing in the witness below. -/
theorem dump_ok_despite_preimage_miss (self : TomoXStateDB) (orderBook : Nat)
    (obj : exchangeObject)
    (hobj : self.getStateExchangeObject orderBook = some obj)
    (ha : ∀ kv ∈ obj.asksTrie, (decodeOrderList kv.2).isSome = true)
    (hb : ∀ kv ∈ obj.bidsTrie, (decodeOrderList kv.2).isSome = true) :
    (∃ r, self.DumpAskTrie orderBook = .ok r) ∧
    (∃ r, self.DumpBidTrie orderBook = .ok r) := by
  constructor
  · have h1 : self.DumpAskTrie orderBook =
        .ok ((nodeIterate obj.asksTrie).map self.dumpEntry) := by
      simp only [TomoXStateDB.DumpAskTrie, hobj]
      exact dumpAskEntries_ok_of_decodes self orderBook _
        (fun kv hkv => ha kv ((List.mem_insertionSort keyLE).mp hkv))
    exact ⟨_, h1⟩
  · have h1 : self.DumpBidTrie orderBook =
        .ok ((nodeIterate obj.bidsTrie).map self.dumpEntry) := by
      simp only [TomoXStateDB.DumpBidTrie, hobj,
        dumpBidEntries_eq_dumpAskEntries]
      exact dumpAskEntries_ok_of_decodes self orderBook _
        (fun kv hkv => hb kv ((List.mem_insertionSort keyLE).mp hkv))
    exact ⟨_, h1⟩

theorem dump_ok_despite_preimage_miss_witness :
    ∃ r, samplePreimageMissState.DumpAskTrie 1 = .ok r :=
  (dump_ok_despite_preimage_miss samplePreimageMissState 1 ⟨[(5, [1, 7])], []⟩ rfl
    (by decide) (by decide)).1

/-- Claim C10: on the light-client backend the order entry points are stubs:
for every input, LesApiBackend.SendOrderTx returns nil without forwarding the
order transaction anywhere (the backend is left untouched), and
LesApiBackend.GetOrderNonce returns nonce 0 together with the error
"cannot find tomox service". -/
theorem les_backend_order_stubs (b : LesApiBackend) (signedTx : OrderTransaction)
    (address : Nat) :
    b.SendOrderTx signedTx = (b, none) ∧
    b.GetOrderNonce address = (0, some "cannot find tomox service") :=
  ⟨rfl, rfl⟩

theorem dumpAskEntries_ok_elem (self : TomoXStateDB) (orderBook : Nat)
    (l : List (Nat × Bytes)) (r : List (Nat × DumpOrderList))
    (h : self.dumpAskEntries orderBook l = .ok r) :
    ∀ pd ∈ r, ∃ kv ∈ l, ∃ ol, decodeOrderList kv.2 = some ol ∧
      pd.1 = bytesToNat (self.getKeyBytes kv.1) ∧
      pd.2.Volume = ol.Volume ∧ pd.2.Orders = self.dumpQueue ol.Root := by
  have hdec := dumpAskEntries_decodes_of_ok self orderBook l r h
  have hok := dumpAskEntries_ok_of_decodes self orderBook l hdec
  have hr : r = l.map self.dumpEntry := Except.ok.inj (h.symm.trans hok)
  subst hr
  intro pd hpd
  obtain ⟨kv, hkv, hpd2⟩ := List.mem_map.mp hpd
  obtain ⟨ol, hol⟩ := Option.isSome_iff_exists.mp (hdec kv hkv)
  refine ⟨kv, hkv, ol, hol, ?_, ?_, ?_⟩ <;>
    simp [← hpd2, TomoXStateDB.dumpEntry, hol]

/-- Claim C8: for every price level that a dump emits, the Volume reported in
the snapshot is exactly the aggregateVolume field decoded from the stored
price-level value; it is not recomputed from, nor checked against, the
per-order volumes enumerated beneath that price (the witness exhibits a stored
aggregate of 7 reproduced verbatim over orders summing to 5). -/
theorem dump_volume_is_stored_aggregate (self : TomoXStateDB) (orderBook : Nat)
    (obj : exchangeObject)
    (hobj : self.getStateExchangeObject orderBook = some obj) :
    (∀ r, self.DumpAskTrie orderBook = .ok r →
      ∀ pd ∈ r, ∃ kv ∈ obj.asksTrie, ∃ ol, decodeOrderList kv.2 = some ol ∧
        pd.1 = bytesToNat (self.getKeyBytes kv.1) ∧
        pd.2.Volume = ol.Volume ∧ pd.2.Orders = self.dumpQueue ol.Root) ∧
    (∀ r, self.DumpBidTrie orderBook = .ok r →
      ∀ pd ∈ r, ∃ kv ∈ obj.bidsTrie, ∃ ol, decodeOrderList kv.2 = some ol ∧
        pd.1 = bytesToNat (self.getKeyBytes kv.1) ∧
        pd.2.Volume = ol.Volume ∧ pd.2.Orders = self.dumpQueue ol.Root) := by
  constructor
  · intro r h pd hpd
    simp only [TomoXStateDB.DumpAskTrie, hobj] at h
    obtain ⟨kv, hkv, rest⟩ := dumpAskEntries_ok_elem self orderBook _ r h pd hpd
    exact ⟨kv, (List.mem_insertionSort keyLE).mp hkv, rest⟩
  · intro r h pd hpd
    simp only [TomoXStateDB.DumpBidTrie, hobj,
      dumpBidEntries_eq_dumpAskEntries] at h
    obtain ⟨kv, hkv, rest⟩ := dumpAskEntries_ok_elem self orderBook _ r h pd hpd
    exact ⟨kv, (List.mem_insertionSort keyLE).mp hkv, rest⟩

theorem dump_volume_is_stored_aggregate_witness :
    sampleAggregateMismatchState.DumpAskTrie 1 =
      .ok [(9, ⟨7, [(1, 2), (2, 3)]⟩)] ∧
    (7 : Nat) ≠ 2 + 3 ∧
    (∃ kv ∈ (⟨[(9, [7, 3])], []⟩ : exchangeObject).asksTrie,
      ∃ ol, decodeOrderList kv.2 = some ol ∧
        (9, (⟨7, [(1, 2), (2, 3)]⟩ : DumpOrderList)).1 =
          bytesToNat (sampleAggregateMismatchState.getKeyBytes kv.1) ∧
        (9, (⟨7, [(1, 2), (2, 3)]⟩ : DumpOrderList)).2.Volume = ol.Volume ∧
        (9, (⟨7, [(1, 2), (2, 3)]⟩ : DumpOrderList)).2.Orders =
          sampleAggregateMismatchState.dumpQueue ol.Root) := by
  refine ⟨rfl, by decide, ?_⟩
  exact (dump_volume_is_stored_aggregate sampleAggregateMismatchState 1
      ⟨[(9, [7, 3])], []⟩ rfl).1
    [(9, ⟨7, [(1, 2), (2, 3)]⟩)] rfl (9, ⟨7, [(1, 2), (2, 3)]⟩)
    (List.mem_singleton.mpr rfl)

theorem sorted_lt_of_sorted_keyLE (l : List (Nat × Bytes))
    (h : l.Sorted keyLE) (hnd : (l.map Prod.fst).Nodup) :
    (l.map Prod.fst).Sorted (· < ·) := by
  have h1 : (l.map Prod.fst).Pairwise (· ≤ ·) :=
    List.pairwise_map.mpr (h.imp (fun hab => hab))
  have h2 : (l.map Prod.fst).Pairwise (· ≠ ·) := hnd
  exact (h1.and h2).imp (fun hab => lt_of_le_of_ne hab.1 hab.2)

theorem dumpQueue_sorted (self : TomoXStateDB) (root : Nat)
    (hnd : ((self.queues root).map Prod.fst).Nodup)
    (hres : ∀ kv ∈ self.queues root, bytesToNat (self.getKeyBytes kv.1) = kv.1) :
    ((self.dumpQueue root).map Prod.fst).Sorted (· < ·) := by
  have hperm := List.perm_insertionSort keyLE (self.queues root)
  have hnd2 : ((nodeIterate (self.queues root)).map Prod.fst).Nodup :=
    ((hperm.map Prod.fst).nodup_iff).mpr hnd
  have hmain := sorted_lt_of_sorted_keyLE _
    (List.sorted_insertionSort keyLE (self.queues root)) hnd2
  have hcong : (self.dumpQueue root).map Prod.fst =
      (nodeIterate (self.queues root)).map Prod.fst := by
    simp only [TomoXStateDB.dumpQueue, List.map_map]
    exact List.map_congr_left
      (fun kv hkv => hres kv ((List.mem_insertionSort keyLE).mp hkv))
  rw [hcong]; exact hmain

theorem dumpSide_ordered (self : TomoXStateDB) (orderBook : Nat)
    (entries : List (Nat × Bytes)) (hc : self.sideConsistent entries) :
    ∃ r, self.dumpAskEntries orderBook (nodeIterate entries) = .ok r ∧
      (r.map Prod.fst).Sorted (· < ·) ∧
      ∀ pd ∈ r, (pd.2.Orders.map Prod.fst).Sorted (· < ·) := by
  obtain ⟨hnd, hres, hdec, hq⟩ := hc
  have hok := dumpAskEntries_ok_of_decodes self orderBook (nodeIterate entries)
    (fun kv hkv => hdec kv ((List.mem_insertionSort keyLE).mp hkv))
  refine ⟨_, hok, ?_, ?_⟩
  · have hperm := List.perm_insertionSort keyLE entries
    have hnd2 : ((nodeIterate entries).map Prod.fst).Nodup :=
      ((hperm.map Prod.fst).nodup_iff).mpr hnd
    have hmain := sorted_lt_of_sorted_keyLE _
      (List.sorted_insertionSort keyLE entries) hnd2
    have hcong : (((nodeIterate entries).map self.dumpEntry).map Prod.fst) =
        (nodeIterate entries).map Prod.fst := by
      simp only [List.map_map]
      exact List.map_congr_left
        (fun kv hkv => hres kv ((List.mem_insertionSort keyLE).mp hkv))
    rw [hcong]; exact hmain
  · intro pd hpd
    obtain ⟨kv, hkv, hpd2⟩ := List.mem_map.mp hpd
    obtain ⟨hqnd, hqres⟩ := hq kv ((List.mem_insertionSort keyLE).mp hkv)
    rw [← hpd2]
    exact dumpQueue_sorted self _ hqnd hqres

/-- Claim C1: for every order book present in the state, the snapshot produced
by DumpAskTrie (resp. DumpBidTrie) is an ordered mapping: its price entries are
produced in ascending numeric price order, and within each price entry the
orders are produced in ascending numeric order-id order. The hypotheses state
that the stored tries are consistent: distinct storage keys, every storage key
resolving through the registry to its own numeric value (storage keys are the
order-preserving big-endian encodings of the semantic keys), and decodable
values. -/
theorem dump_produces_ordered_snapshot (self : TomoXStateDB) (orderBook : Nat)
    (obj : exchangeObject)
    (hobj : self.getStateExchangeObject orderBook = some obj)
    (ha : self.sideConsistent obj.asksTrie)
    (hb : self.sideConsistent obj.bidsTrie) :
    (∃ r, self.DumpAskTrie orderBook = .ok r ∧
      (r.map Prod.fst).Sorted (· < ·) ∧
      ∀ pd ∈ r, (pd.2.Orders.map Prod.fst).Sorted (· < ·)) ∧
    (∃ r, self.DumpBidTrie orderBook = .ok r ∧
      (r.map Prod.fst).Sorted (· < ·) ∧
      ∀ pd ∈ r, (pd.2.Orders.map Prod.fst).Sorted (· < ·)) := by
  constructor
  · obtain ⟨r, hok, hs1, hs2⟩ := dumpSide_ordered self orderBook obj.asksTrie ha
    refine ⟨r, ?_, hs1, hs2⟩
    simp only [TomoXStateDB.DumpAskTrie, hobj]
    exact hok
  · obtain ⟨r, hok, hs1, hs2⟩ := dumpSide_ordered self orderBook obj.bidsTrie hb
    refine ⟨r, ?_, hs1, hs2⟩
    simp only [TomoXStateDB.DumpBidTrie, hobj,
      dumpBidEntries_eq_dumpAskEntries]
    exact hok

theorem dump_produces_ordered_snapshot_witness :
    (([(90, (⟨10, [(3, 10)]⟩ : DumpOrderList)),
       (100, ⟨8, [(1, 5), (2, 3)]⟩)].map Prod.fst).Sorted (· < ·)) ∧
    (([(1, 5), (2, 3)].map (Prod.fst (β := Nat))).Sorted (· < ·)) := by
  obtain ⟨r, hok, hs1, hs2⟩ := (dump_produces_ordered_snapshot sampleConsistentState 1
    ⟨[(100, [8, 4]), (90, [10, 3])], [(100, [8, 4])]⟩ rfl (by decide) (by decide)).1
  have hconc : sampleConsistentState.DumpAskTrie 1 =
      .ok [(90, ⟨10, [(3, 10)]⟩), (100, ⟨8, [(1, 5), (2, 3)]⟩)] := rfl
  have hr : r = [(90, ⟨10, [(3, 10)]⟩), (100, ⟨8, [(1, 5), (2, 3)]⟩)] :=
    Except.ok.inj (hok.symm.trans hconc)
  subst hr
  exact ⟨hs1, hs2 (100, ⟨8, [(1, 5), (2, 3)]⟩) (by decide)⟩

theorem dumpBidEntries_mapError_of_askEntries (s1 s2 : TomoXStateDB) (b1 b2 : Nat)
    (hp : s1.preimages = s2.preimages) (hq : s1.queues = s2.queues) :
    ∀ l, s2.dumpBidEntries b2 l =
      (s1.dumpAskEntries b1 l).mapError (fun e => e.withBook b2) := by
  have hkey : ∀ k, s2.getKeyBytes k = s1.getKeyBytes k := by
    intro k
    simp [TomoXStateDB.getKeyBytes, hp]
  have hque : ∀ root, s2.dumpQueue root = s1.dumpQueue root := by
    intro root
    simp [TomoXStateDB.dumpQueue, ← hq, hkey]
  intro l
  induction l with
  | nil => rfl
  | cons hd rest ih =>
    cases hdec : decodeOrderList hd.2 with
    | none =>
      simp only [TomoXStateDB.dumpBidEntries, TomoXStateDB.dumpAskEntries, hdec,
        Except.mapError, hkey, DumpError.withBook]
    | some data =>
      cases hrec : s1.dumpAskEntries b1 rest with
      | error e =>
        simp only [TomoXStateDB.dumpBidEntries, TomoXStateDB.dumpAskEntries, hdec,
          hrec, ih, Except.mapError]
      | ok r =>
        simp only [TomoXStateDB.dumpBidEntries, TomoXStateDB.dumpAskEntries, hdec,
          hrec, ih, Except.mapError, hkey, hque]

/-- Claim C9 counterexample: in `sampleTwoBookState` the ask trie of book 1 and
the bid trie of book 2 hold exactly the same key/value pairs, the preimage
registry (shared by construction) resolves every key, yet DumpAskTrie on book 1
and DumpBidTrie on book 2 return neither equal snapshots nor equal errors: both
fail on the undecodable value, and the two errors name different order-book
ids. -/
theorem dump_ask_bid_differ_on_book_id :
    (⟨[(5, [])], []⟩ : exchangeObject).asksTrie =
      (⟨[], [(5, [])]⟩ : exchangeObject).bidsTrie ∧
    sampleTwoBookState.getStateExchangeObject 1 = some ⟨[(5, [])], []⟩ ∧
    sampleTwoBookState.getStateExchangeObject 2 = some ⟨[], [(5, [])]⟩ ∧
    sampleTwoBookState.preimages 5 = some [5] ∧
    sampleTwoBookState.DumpAskTrie 1 = .error (.decodeFail 1 5) ∧
    sampleTwoBookState.DumpBidTrie 2 = .error (.decodeFail 2 5) ∧
    sampleTwoBookState.DumpAskTrie 1 ≠ sampleTwoBookState.DumpBidTrie 2 :=
  ⟨rfl, rfl, rfl, rfl, rfl, rfl,
   fun h => absurd (Except.error.inj h) (by decide)⟩

/-- Claim C9 amended: DumpAskTrie and DumpBidTrie compute the same function of
the side-specific trie they open, up to the order-book id interpolated into
error messages: when the two exchange objects exist, the ask trie of one equals
the bid trie of the other, and the preimage registries and queue tries agree,
DumpBidTrie on the second equals DumpAskTrie on the first with any error
renamed to carry the second book id (so success snapshots are equal, and
failures differ at most in the book id named by the error). -/
theorem dump_ask_bid_agree_up_to_book (s1 s2 : TomoXStateDB) (b1 b2 : Nat)
    (o1 o2 : exchangeObject)
    (h1 : s1.getStateExchangeObject b1 = some o1)
    (h2 : s2.getStateExchangeObject b2 = some o2)
    (ht : o1.asksTrie = o2.bidsTrie)
    (hp : s1.preimages = s2.preimages)
    (hq : s1.queues = s2.queues) :
    s2.DumpBidTrie b2 = (s1.DumpAskTrie b1).mapError (fun e => e.withBook b2) := by
  simp only [TomoXStateDB.DumpBidTrie, TomoXStateDB.DumpAskTrie, h1, h2, ← ht]
  exact dumpBidEntries_mapError_of_askEntries s1 s2 b1 b2 hp hq _

theorem dump_ask_bid_agree_up_to_book_witness :
    sampleTwoBookState.DumpBidTrie 2 =
      (sampleTwoBookState.DumpAskTrie 1).mapError (fun e => e.withBook 2) :=
  dump_ask_bid_agree_up_to_book sampleTwoBookState sampleTwoBookState 1 2
    ⟨[(5, [])], []⟩ ⟨[], [(5, [])]⟩ rfl rfl rfl rfl rfl

theorem upsertQueue_mem (orderId : Nat) (δ : Int) :
    ∀ q, ∀ iv ∈ upsertQueue orderId δ q, iv.1 = orderId ∨ iv ∈ q := by
  intro q
  induction q with
  | nil =>
    intro iv hiv
    simp only [upsertQueue] at hiv
    split at hiv
    · cases hiv
    · rcases List.mem_singleton.mp hiv with rfl
      exact Or.inl rfl
  | cons jv rest ih =>
    intro iv hiv
    simp only [upsertQueue] at hiv
    split at hiv
    · split at hiv
      · exact Or.inr hiv
      · rcases List.mem_cons.mp hiv with heq | hmem
        · exact Or.inl (by rw [heq])
        · exact Or.inr hmem
    · split at hiv
      · split at hiv
        · exact Or.inr (List.mem_cons_of_mem _ hiv)
        · rcases List.mem_cons.mp hiv with heq | hmem
          · exact Or.inl (by rw [heq])
          · exact Or.inr (List.mem_cons_of_mem _ hmem)
      · rcases List.mem_cons.mp hiv with heq | hmem
        · exact Or.inr (heq ▸ List.mem_cons_self _ _)
        · rcases ih iv hmem with h | h
          · exact Or.inl h
          · exact Or.inr (List.mem_cons_of_mem _ h)

theorem upsertQueue_sorted (orderId : Nat) (δ : Int) :
    ∀ q : OrderQueue, (q.map Prod.fst).Sorted (· < ·) →
      ((upsertQueue orderId δ q).map Prod.fst).Sorted (· < ·) := by
  intro q
  induction q with
  | nil =>
    intro _
    simp only [upsertQueue]
    split
    · simp
    · simp
  | cons jv rest ih =>
    intro hs
    rw [List.map_cons, List.sorted_cons] at hs
    obtain ⟨hlt, hrest⟩ := hs
    simp only [upsertQueue]
    by_cases h1 : orderId < jv.1
    · rw [if_pos h1]
      by_cases h2 : δ ≤ 0
      · rw [if_pos h2, List.map_cons, List.sorted_cons]
        exact ⟨hlt, hrest⟩
      · rw [if_neg h2]
        simp only [List.map_cons, List.sorted_cons]
        refine ⟨?_, hlt, hrest⟩
        intro b hb
        rcases List.mem_cons.mp hb with rfl | hbm
        · exact h1
        · exact h1.trans (hlt b hbm)
    · rw [if_neg h1]
      by_cases h2 : orderId = jv.1
      · rw [if_pos h2]
        by_cases h3 : (jv.2 : Int) + δ ≤ 0
        · rw [if_pos h3]
          exact hrest
        · rw [if_neg h3, List.map_cons, List.sorted_cons]
          exact ⟨fun b hb => by rw [h2]; exact hlt b hb, hrest⟩
      · rw [if_neg h2, List.map_cons, List.sorted_cons]
        refine ⟨?_, ih hrest⟩
        intro b hb
        obtain ⟨iv, hiv, rfl⟩ := List.mem_map.mp hb
        rcases upsertQueue_mem orderId δ rest iv hiv with hk | hk
        · rw [hk]; omega
        · exact hlt iv.1 (List.mem_map_of_mem Prod.fst hk)

theorem upsertQueue_pos (orderId : Nat) (δ : Int) :
    ∀ q : OrderQueue, (∀ iv ∈ q, 0 < iv.2) →
      ∀ iv ∈ upsertQueue orderId δ q, 0 < iv.2 := by
  intro q
  induction q with
  | nil =>
    intro _ iv hiv
    simp only [upsertQueue] at hiv
    by_cases h : δ ≤ 0
    · rw [if_pos h] at hiv
      cases hiv
    · rw [if_neg h] at hiv
      rcases List.mem_singleton.mp hiv with rfl
      show 0 < δ.toNat
      omega
  | cons jv rest ih =>
    intro hpos iv hiv
    simp only [upsertQueue] at hiv
    by_cases h1 : orderId < jv.1
    · rw [if_pos h1] at hiv
      by_cases h2 : δ ≤ 0
      · rw [if_pos h2] at hiv
        exact hpos iv hiv
      · rw [if_neg h2] at hiv
        rcases List.mem_cons.mp hiv with rfl | hmem
        · show 0 < δ.toNat
          omega
        · exact hpos iv hmem
    · rw [if_neg h1] at hiv
      by_cases h2 : orderId = jv.1
      · rw [if_pos h2] at hiv
        by_cases h3 : (jv.2 : Int) + δ ≤ 0
        · rw [if_pos h3] at hiv
          exact hpos iv (List.mem_cons_of_mem _ hiv)
        · rw [if_neg h3] at hiv
          rcases List.mem_cons.mp hiv with rfl | hmem
          · show 0 < ((jv.2 : Int) + δ).toNat
            omega
          · exact hpos iv (List.mem_cons_of_mem _ hmem)
      · rw [if_neg h2] at hiv
        rcases List.mem_cons.mp hiv with rfl | hmem
        · exact hpos iv (List.mem_cons_self _ _)
        · exact ih (fun iv2 h2 => hpos iv2 (List.mem_cons_of_mem _ h2)) iv hmem

theorem WFQueue_nil : WFQueue [] :=
  ⟨by simp, fun iv h => absurd h (List.not_mem_nil iv)⟩

theorem upsertQueue_wf (orderId : Nat) (δ : Int) (q : OrderQueue) (h : WFQueue q) :
    WFQueue (upsertQueue orderId δ q) :=
  ⟨upsertQueue_sorted orderId δ q h.1, upsertQueue_pos orderId δ q h.2⟩

theorem upsertOrder_mem (price orderId : Nat) (δ : Int) :
    ∀ b : AskBook, ∀ pq ∈ upsertOrder price orderId δ b,
      pq ∈ b ∨
      (pq.1 = price ∧ pq.2 ≠ [] ∧
        (pq.2 = upsertQueue orderId δ [] ∨
         ∃ q0, (pq.1, q0) ∈ b ∧ pq.2 = upsertQueue orderId δ q0)) := by
  intro b
  induction b with
  | nil =>
    intro pq hpq
    simp only [upsertOrder] at hpq
    by_cases h : upsertQueue orderId δ [] = []
    · rw [if_pos h] at hpq
      cases hpq
    · rw [if_neg h] at hpq
      rcases List.mem_singleton.mp hpq with rfl
      exact Or.inr ⟨rfl, h, Or.inl rfl⟩
  | cons pq0 rest ih =>
    intro pq hpq
    simp only [upsertOrder] at hpq
    by_cases h1 : price < pq0.1
    · rw [if_pos h1] at hpq
      by_cases h2 : upsertQueue orderId δ [] = []
      · rw [if_pos h2] at hpq
        exact Or.inl hpq
      · rw [if_neg h2] at hpq
        rcases List.mem_cons.mp hpq with rfl | hmem
        · exact Or.inr ⟨rfl, h2, Or.inl rfl⟩
        · exact Or.inl hmem
    · rw [if_neg h1] at hpq
      by_cases h2 : price = pq0.1
      · rw [if_pos h2] at hpq
        by_cases h3 : upsertQueue orderId δ pq0.2 = []
        · rw [if_pos h3] at hpq
          exact Or.inl (List.mem_cons_of_mem _ hpq)
        · rw [if_neg h3] at hpq
          rcases List.mem_cons.mp hpq with rfl | hmem
          · refine Or.inr ⟨rfl, h3, Or.inr ⟨pq0.2, ?_, rfl⟩⟩
            have hmem0 : ((price, pq0.2) : Nat × OrderQueue) = pq0 := by rw [h2]
            show ((price, pq0.2) : Nat × OrderQueue) ∈ pq0 :: rest
            rw [hmem0]
            exact List.mem_cons_self _ _
          · exact Or.inl (List.mem_cons_of_mem _ hmem)
      · rw [if_neg h2] at hpq
        rcases List.mem_cons.mp hpq with rfl | hmem
        · exact Or.inl (List.mem_cons_self _ _)
        · rcases ih pq hmem with h | ⟨ha, hb, hc⟩
          · exact Or.inl (List.mem_cons_of_mem _ h)
          · refine Or.inr ⟨ha, hb, ?_⟩
            rcases hc with hc | ⟨q0, hq0, hc⟩
            · exact Or.inl hc
            · exact Or.inr ⟨q0, List.mem_cons_of_mem _ hq0, hc⟩

theorem upsertOrder_keys (price orderId : Nat) (δ : Int) (b : AskBook) :
    ∀ pq ∈ upsertOrder price orderId δ b, pq.1 = price ∨ pq ∈ b := by
  intro pq hpq
  rcases upsertOrder_mem price orderId δ b pq hpq with h | h
  · exact Or.inr h
  · exact Or.inl h.1

theorem upsertOrder_sorted (price orderId : Nat) (δ : Int) :
    ∀ b : AskBook, (b.map Prod.fst).Sorted (· < ·) →
      ((upsertOrder price orderId δ b).map Prod.fst).Sorted (· < ·) := by
  intro b
  induction b with
  | nil =>
    intro _
    simp only [upsertOrder]
    split
    · simp
    · simp
  | cons pq0 rest ih =>
    intro hs
    rw [List.map_cons, List.sorted_cons] at hs
    obtain ⟨hlt, hrest⟩ := hs
    simp only [upsertOrder]
    by_cases h1 : price < pq0.1
    · rw [if_pos h1]
      by_cases h2 : upsertQueue orderId δ [] = []
      · rw [if_pos h2, List.map_cons, List.sorted_cons]
        exact ⟨hlt, hrest⟩
      · rw [if_neg h2]
        simp only [List.map_cons, List.sorted_cons]
        refine ⟨?_, hlt, hrest⟩
        intro b2 hb2
        rcases List.mem_cons.mp hb2 with rfl | hbm
        · exact h1
        · exact h1.trans (hlt b2 hbm)
    · rw [if_neg h1]
      by_cases h2 : price = pq0.1
      · rw [if_pos h2]
        by_cases h3 : upsertQueue orderId δ pq0.2 = []
        · rw [if_pos h3]
          exact hrest
        · rw [if_neg h3, List.map_cons, List.sorted_cons]
          exact ⟨fun b2 hb2 => by rw [h2]; exact hlt b2 hb2, hrest⟩
      · rw [if_neg h2, List.map_cons, List.sorted_cons]
        refine ⟨?_, ih hrest⟩
        intro b2 hb2
        obtain ⟨pq, hpq, rfl⟩ := List.mem_map.mp hb2
        rcases upsertOrder_keys price orderId δ rest pq hpq with hk | hk
        · rw [hk]; omega
        · exact hlt pq.1 (List.mem_map_of_mem Prod.fst hk)

theorem upsertOrder_wf (price orderId : Nat) (δ : Int) (b : AskBook)
    (h : WFBook b) : WFBook (upsertOrder price orderId δ b) := by
  refine ⟨upsertOrder_sorted price orderId δ b h.1, ?_⟩
  intro pq hpq
  rcases upsertOrder_mem price orderId δ b pq hpq with hold | ⟨hp, hne, hq⟩
  · exact h.2 pq hold
  · refine ⟨?_, hne⟩
    rcases hq with hq | ⟨q0, hq0, hq⟩
    · rw [hq]
      exact upsertQueue_wf orderId δ [] WFQueue_nil
    · rw [hq]
      exact upsertQueue_wf orderId δ q0 (h.2 (pq.1, q0) hq0).1

theorem removeOrder_keys_sublist (price orderId : Nat) :
    ∀ b : AskBook,
      ((removeOrder price orderId b).map Prod.fst).Sublist (b.map Prod.fst) := by
  intro b
  induction b with
  | nil => simp [removeOrder]
  | cons pq0 rest ih =>
    simp only [removeOrder]
    by_cases h1 : price = pq0.1
    · rw [if_pos h1]
      by_cases h2 : pq0.2.filter (fun iv => iv.1 != orderId) = []
      · rw [if_pos h2, List.map_cons]
        exact List.sublist_cons_self _ _
      · rw [if_neg h2, List.map_cons, List.map_cons]
        show (price :: rest.map Prod.fst).Sublist (pq0.1 :: rest.map Prod.fst)
        rw [h1]
    · rw [if_neg h1, List.map_cons, List.map_cons]
      exact List.Sublist.cons₂ _ ih

theorem removeOrder_mem (price orderId : Nat) :
    ∀ b : AskBook, ∀ pq ∈ removeOrder price orderId b,
      pq ∈ b ∨ ∃ q0, (pq.1, q0) ∈ b ∧
        pq.2 = q0.filter (fun iv => iv.1 != orderId) ∧ pq.2 ≠ [] := by
  intro b
  induction b with
  | nil =>
    intro pq hpq
    cases hpq
  | cons pq0 rest ih =>
    intro pq hpq
    simp only [removeOrder] at hpq
    by_cases h1 : price = pq0.1
    · rw [if_pos h1] at hpq
      by_cases h2 : pq0.2.filter (fun iv => iv.1 != orderId) = []
      · rw [if_pos h2] at hpq
        exact Or.inl (List.mem_cons_of_mem _ hpq)
      · rw [if_neg h2] at hpq
        rcases List.mem_cons.mp hpq with rfl | hmem
        · refine Or.inr ⟨pq0.2, ?_, rfl, h2⟩
          have hmem0 : ((price, pq0.2) : Nat × OrderQueue) = pq0 := by rw [h1]
          show ((price, pq0.2) : Nat × OrderQueue) ∈ pq0 :: rest
          rw [hmem0]
          exact List.mem_cons_self _ _
        · exact Or.inl (List.mem_cons_of_mem _ hmem)
    · rw [if_neg h1] at hpq
      rcases List.mem_cons.mp hpq with rfl | hmem
      · exact Or.inl (List.mem_cons_self _ _)
      · rcases ih pq hmem with h | ⟨q0, hq0, hf, hne⟩
        · exact Or.inl (List.mem_cons_of_mem _ h)
        · exact Or.inr ⟨q0, List.mem_cons_of_mem _ hq0, hf, hne⟩

theorem WFQueue_filter (q : OrderQueue) (h : WFQueue q) (p : Nat × Nat → Bool) :
    WFQueue (q.filter p) :=
  ⟨List.Pairwise.sublist ((q.filter_sublist).map Prod.fst) h.1,
   fun iv hiv => h.2 iv (List.mem_of_mem_filter hiv)⟩

theorem removeOrder_wf (price orderId : Nat) (b : AskBook) (h : WFBook b) :
    WFBook (removeOrder price orderId b) := by
  refine ⟨List.Pairwise.sublist (removeOrder_keys_sublist price orderId b) h.1, ?_⟩
  intro pq hpq
  rcases removeOrder_mem price orderId b pq hpq with hold | ⟨q0, hq0, hf, hne⟩
  · exact h.2 pq hold
  · refine ⟨?_, hne⟩
    rw [hf]
    exact WFQueue_filter q0 (h.2 (pq.1, q0) hq0).1 _

theorem reachableAsk_wf {b : AskBook} (h : ReachableAsk b) : WFBook b := by
  induction h with
  | empty => exact ⟨by simp, fun pq hpq => absurd hpq (List.not_mem_nil pq)⟩
  | upsert price orderId δ _ ih => exact upsertOrder_wf price orderId δ _ ih
  | remove price orderId _ ih => exact removeOrder_wf price orderId _ ih

theorem replayAsk_nil (b : AskBook) : replayAsk [] b = b := rfl

theorem replayAsk_cons (t : Nat × Nat × Nat) (ts : List (Nat × Nat × Nat))
    (b : AskBook) :
    replayAsk (t :: ts) b = replayAsk ts (upsertOrder t.1 t.2.1 (t.2.2 : Int) b) :=
  rfl

theorem replayAsk_append (l1 l2 : List (Nat × Nat × Nat)) (b : AskBook) :
    replayAsk (l1 ++ l2) b = replayAsk l2 (replayAsk l1 b) := by
  simp [replayAsk, List.foldl_append]

theorem upsertQueue_append_max (orderId v : Nat) (hv : 0 < v) :
    ∀ q : OrderQueue, (∀ jv ∈ q, jv.1 < orderId) →
      upsertQueue orderId (v : Int) q = q ++ [(orderId, v)] := by
  intro q
  induction q with
  | nil =>
    intro _
    simp only [upsertQueue]
    rw [if_neg (by omega)]
    simp
  | cons jv rest ih =>
    intro hlt
    have h0 : jv.1 < orderId := hlt jv (List.mem_cons_self _ _)
    simp only [upsertQueue]
    rw [if_neg (by omega), if_neg (by omega),
        ih (fun jv2 h2 => hlt jv2 (List.mem_cons_of_mem _ h2))]
    rfl

theorem upsertOrder_append_level (price orderId : Nat) (δ : Int) (qacc : OrderQueue)
    (hne : upsertQueue orderId δ qacc ≠ []) :
    ∀ bk : AskBook, (∀ pq ∈ bk, pq.1 < price) →
      upsertOrder price orderId δ (bk ++ [(price, qacc)]) =
        bk ++ [(price, upsertQueue orderId δ qacc)] := by
  intro bk
  induction bk with
  | nil =>
    intro _
    simp [upsertOrder, hne]
  | cons pq0 rest ih =>
    intro hlt
    have h0 : pq0.1 < price := hlt pq0 (List.mem_cons_self _ _)
    simp only [List.cons_append, upsertOrder]
    rw [if_neg (by omega), if_neg (by omega)]
    show pq0 :: upsertOrder price orderId δ (rest ++ [(price, qacc)]) = _
    rw [ih (fun pq h => hlt pq (List.mem_cons_of_mem _ h))]

theorem upsertOrder_create_level (price orderId v : Nat) (hv : 0 < v) :
    ∀ bk : AskBook, (∀ pq ∈ bk, pq.1 < price) →
      upsertOrder price orderId (v : Int) bk = bk ++ [(price, [(orderId, v)])] := by
  intro bk
  induction bk with
  | nil =>
    intro _
    have h1 : upsertQueue orderId (v : Int) [] = [(orderId, v)] := by
      simp only [upsertQueue]
      rw [if_neg (by omega)]
      simp
    simp only [upsertOrder, h1]
    rw [if_neg (by simp)]
    rfl
  | cons pq0 rest ih =>
    intro hlt
    have h0 : pq0.1 < price := hlt pq0 (List.mem_cons_self _ _)
    simp only [upsertOrder]
    rw [if_neg (by omega), if_neg (by omega),
        ih (fun pq h => hlt pq (List.mem_cons_of_mem _ h))]
    rfl

theorem replay_queue_triples (p : Nat) :
    ∀ q : OrderQueue, ∀ (bk : AskBook) (qacc : OrderQueue),
      (∀ pq ∈ bk, pq.1 < p) →
      (∀ iv ∈ q, 0 < iv.2) →
      (∀ iv ∈ q, ∀ jv ∈ qacc, jv.1 < iv.1) →
      ((q.map Prod.fst).Sorted (· < ·)) →
      replayAsk (q.map (fun iv => (p, iv.1, iv.2))) (bk ++ [(p, qacc)]) =
        bk ++ [(p, qacc ++ q)] := by
  intro q
  induction q with
  | nil =>
    intro bk qacc _ _ _ _
    simp [replayAsk]
  | cons iv q2 ih =>
    intro bk qacc hbk hpos hgt hs
    rw [List.map_cons, List.sorted_cons] at hs
    obtain ⟨hhead, htail⟩ := hs
    have ha := upsertQueue_append_max iv.1 iv.2 (hpos iv (List.mem_cons_self _ _))
      qacc (fun jv hjv => hgt iv (List.mem_cons_self _ _) jv hjv)
    have hne : upsertQueue iv.1 ((iv.2 : Nat) : Int) qacc ≠ [] := by
      rw [ha]
      simp
    have hstep : upsertOrder p iv.1 ((iv.2 : Nat) : Int) (bk ++ [(p, qacc)]) =
        bk ++ [(p, qacc ++ [iv])] := by
      rw [upsertOrder_append_level p iv.1 _ qacc hne bk hbk, ha]
    rw [List.map_cons, replayAsk_cons]
    show replayAsk (q2.map (fun iv => (p, iv.1, iv.2)))
        (upsertOrder p iv.1 ((iv.2 : Nat) : Int) (bk ++ [(p, qacc)])) = _
    rw [hstep]
    have hrec := ih bk (qacc ++ [iv]) hbk
      (fun iv2 h2 => hpos iv2 (List.mem_cons_of_mem _ h2))
      (fun iv2 h2 jv hjv => by
        rcases List.mem_append.mp hjv with hj | hj
        · exact hgt iv2 (List.mem_cons_of_mem _ h2) jv hj
        · rcases List.mem_singleton.mp hj with rfl
          exact hhead iv2.1 (List.mem_map_of_mem Prod.fst h2))
      htail
    rw [hrec, List.append_assoc]
    rfl

theorem replay_book_triples :
    ∀ b : AskBook, ∀ acc : AskBook, WFBook b →
      (∀ pq ∈ b, ∀ pq2 ∈ acc, pq2.1 < pq.1) →
      replayAsk (snapshotTriples b) acc = acc ++ b := by
  intro b
  induction b with
  | nil =>
    intro acc _ _
    simp [snapshotTriples, replayAsk]
  | cons pq rest ih =>
    intro acc hwf hacc
    obtain ⟨hsorted, hlevels⟩ := hwf
    rw [List.map_cons, List.sorted_cons] at hsorted
    obtain ⟨hhead, htail⟩ := hsorted
    obtain ⟨hq_wf, hq_ne⟩ := hlevels pq (List.mem_cons_self _ _)
    have hsplit : snapshotTriples (pq :: rest) =
        pq.2.map (fun iv => (pq.1, iv.1, iv.2)) ++ snapshotTriples rest := by
      simp [snapshotTriples]
    rw [hsplit, replayAsk_append]
    obtain ⟨iv0, q2, hq⟩ : ∃ iv0 q2, pq.2 = iv0 :: q2 := by
      cases hpq2 : pq.2 with
      | nil => exact absurd hpq2 hq_ne
      | cons a l => exact ⟨a, l, rfl⟩
    have hq_sorted := hq_wf.1
    have hq_pos := hq_wf.2
    rw [hq] at hq_sorted hq_pos
    rw [List.map_cons, List.sorted_cons] at hq_sorted
    have hstage1 : replayAsk (pq.2.map (fun iv => (pq.1, iv.1, iv.2))) acc =
        acc ++ [pq] := by
      rw [hq, List.map_cons, replayAsk_cons]
      show replayAsk (q2.map (fun iv => (pq.1, iv.1, iv.2)))
          (upsertOrder pq.1 iv0.1 ((iv0.2 : Nat) : Int) acc) = _
      rw [upsertOrder_create_level pq.1 iv0.1 iv0.2
            (hq_pos iv0 (List.mem_cons_self _ _)) acc
            (fun pq2 h2 => hacc pq (List.mem_cons_self _ _) pq2 h2)]
      have hrec := replay_queue_triples pq.1 q2 acc [(iv0.1, iv0.2)]
        (fun pq2 h2 => hacc pq (List.mem_cons_self _ _) pq2 h2)
        (fun iv2 h2 => hq_pos iv2 (List.mem_cons_of_mem _ h2))
        (fun iv2 h2 jv hjv => by
          rcases List.mem_singleton.mp hjv with rfl
          show iv0.1 < iv2.1
          exact hq_sorted.1 iv2.1 (List.mem_map_of_mem Prod.fst h2))
        hq_sorted.2
      rw [hrec]
      have : ([(iv0.1, iv0.2)] : OrderQueue) ++ q2 = pq.2 := by
        rw [hq]
        rfl
      rw [this]
    rw [hstage1]
    have hrest := ih (acc ++ [pq]) ⟨htail, fun pq2 h2 => hlevels pq2 (List.mem_cons_of_mem _ h2)⟩
      (fun pq2 h2 pq3 h3 => by
        rcases List.mem_append.mp h3 with h3 | h3
        · exact hacc pq2 (List.mem_cons_of_mem _ h2) pq3 h3
        · rcases List.mem_singleton.mp h3 with rfl
          exact hhead pq2.1 (List.mem_map_of_mem Prod.fst h2))
    rw [hrest, List.append_assoc]
    rfl

/-- Claim C6: round-trip: for every reachable ask-book state, taking its dump
snapshot and replaying every (price, orderId, volume) triple of that snapshot
via upsertOrder into a fresh empty ask book yields a book whose snapshot is
identical to the original snapshot. -/
theorem dump_replay_roundtrip (b : AskBook) (hb : ReachableAsk b) :
    snapshotAsk (replayAsk (snapshotTriples b) []) = snapshotAsk b := by
  have hwf := reachableAsk_wf hb
  have hrep : replayAsk (snapshotTriples b) [] = b := by
    have h0 := replay_book_triples b [] hwf
      (fun pq _ pq2 h2 => absurd h2 (List.not_mem_nil pq2))
    simpa using h0
  rw [hrep]

theorem dump_replay_roundtrip_witness :
    snapshotAsk (replayAsk (snapshotTriples
      (upsertOrder 100 1 5 (upsertOrder 90 3 10 []))) []) =
    snapshotAsk (upsertOrder 100 1 5 (upsertOrder 90 3 10 [])) :=
  dump_replay_roundtrip _
    (ReachableAsk.upsert 100 1 5 (ReachableAsk.upsert 90 3 10 ReachableAsk.empty))

end TomoX
